import Mathlib

/-!
Verification of the similarity-ranking and area-detection engine of the
rad-ai test-case analysis agent (`agent/agent.py` and
`mcp/test_case_server.py`).

Modelling conventions:
* A CSV record (`TestCase`) carries the seven string fields of the Python
  dicts built by the loaders.
* Embedding vectors produced by the external SentenceTransformer model are
  modelled as lists of rationals; the provider itself is a parameter
  `embed : String → List ℚ` of every pipeline function, matching
  `get_embedding`'s role as an external, text-keyed deterministic function.
* Cosine similarity follows both Python call sites exactly:
  `dot/(norm*norm)` under the guard `norm_a > 0 and norm_b > 0`, else `0.0`.
  Norms use the real square root, so all score-valued functions live in `ℝ`.
* Python's stable `list.sort(key=..., reverse=True)` / `sorted(...,
  reverse=True)` is modelled by `List.insertionSort` with the relation
  "key of the left argument is at least the key of the right argument",
  which is stable in the same way.
* Python dicts keyed by record id are modelled with first-occurrence key
  order and last-write-wins values, as in CPython.
-/

namespace RadAI

/-- A test-case record, as built by the CSV loaders in `agent.py`
(`load_test_cases_from_csv`) and `test_case_server.py` (`_load_csv`). -/
structure TestCase where
  id : String
  title : String
  state : String
  area : String
  created_date : String
  description : String
  steps : String
  deriving DecidableEq

/-- The combined text `f"{title} {description} {steps}"` embedded for each
record (`compute_test_case_embeddings` and `detect_duplicates_with_claude`). -/
def combinedText (tc : TestCase) : String :=
  tc.title ++ " " ++ tc.description ++ " " ++ tc.steps

/-- `listStarts n h` is true when `h` begins with `n` (helper for the Python
substring test). -/
def listStarts : List Char → List Char → Bool
  | [], _ => true
  | _ :: _, [] => false
  | c :: cs, d :: ds => c == d && listStarts cs ds

/-- Occurrence of `n` as a contiguous run inside the second list; true for
the empty `n`, like Python's `"" in s`. -/
def listSub : List Char → List Char → Bool
  | [], _ => true
  | _ :: _, [] => false
  | n, d :: ds => listStarts n (d :: ds) || listSub n ds

/-- Python's substring membership `needle in haystack` on strings. -/
def pySubstr (needle haystack : String) : Bool :=
  listSub needle.data haystack.data

/-- Python `str.lower()` (char-wise lower-casing; core `String.toLower` is
the same map but is not kernel-reducible, so the map is taken directly). -/
def strLower (s : String) : String := ⟨s.data.map Char.toLower⟩

/-- Python `str.replace(c, r)` for the single-character patterns used by
the boost function (backslash and slash to space). -/
def charReplace (c r : Char) (l : List Char) : List Char :=
  l.map (fun d => if d = c then r else d)

/-- Split a character list at every separator character, keeping (possibly
empty) pieces between separators, like `str.split(sep)`; combined with a
nonempty filter it is Python's whitespace `str.split()`. -/
def splitOnPred (p : Char → Bool) : List Char → List (List Char)
  | [] => [[]]
  | c :: cs =>
    match splitOnPred p cs with
    | [] => []
    | w :: ws => if p c then [] :: w :: ws else (c :: w) :: ws

/-- Sum of squares of a vector; the numpy norm is its square root. -/
def normSq (v : List ℚ) : ℚ := (v.map (fun x => x * x)).sum

/-- Dot product of two embedding vectors (numpy `dot`; trailing entries of
the longer vector are ignored, which is irrelevant here since one provider
produces fixed-length vectors). -/
def dotQ (a b : List ℚ) : ℚ := (List.zipWith (fun x y => x * y) a b).sum

/-- Euclidean norm of an embedding vector (`np.linalg.norm`). -/
noncomputable def vnorm (v : List ℚ) : ℝ := Real.sqrt (normSq v)

/-- Cosine similarity exactly as computed at both call sites
(`find_similar_test_cases` lines 286-293 and `detect_duplicates_with_claude`
lines 438-445 of agent.py): the division `dot/(norm_a*norm_b)` is evaluated
only under the guard `norm_a > 0 and norm_b > 0`, otherwise the similarity
is defined to be `0.0`. -/
noncomputable def cosineSim (a b : List ℚ) : ℝ :=
  if 0 < vnorm a ∧ 0 < vnorm b then (dotQ a b : ℝ) / (vnorm a * vnorm b) else 0

/-- Key list of a Python dict built by repeated insertion: first-occurrence
order, duplicates collapsed. -/
def pyDictKeys (l : List String) : List String :=
  l.foldl (fun acc x => if x ∈ acc then acc else acc ++ [x]) []

/-- Value held by the id-keyed embeddings dict for id `i`: the embedding of
the last record carrying that id (later insertions overwrite earlier ones). -/
def dictEmbed (embed : String → List ℚ) (tcs : List TestCase) (i : String) : List ℚ :=
  match (tcs.filter (fun tc => tc.id = i)).getLast? with
  | some tc => embed (combinedText tc)
  | none => []

/-- All ordered pairs (i, j) with i before j, in the double-loop order of
`detect_duplicates_with_claude`. -/
def upperPairs {α : Type} : List α → List (α × α)
  | [] => []
  | x :: xs => (xs.map (fun y => (x, y))) ++ upperPairs xs

/-- The `matches` count of `_calculate_area_similarity_boost`: how many
tokens of the lower-cased area path (split on backslash, slash and
whitespace) occur as substrings of the lower-cased bug text. -/
def areaMatches (tc : TestCase) (bug_text : String) : ℕ :=
  let test_area := strLower tc.area
  let bug_text_lower := strLower bug_text
  let area_keywords :=
    splitOnPred (fun c => c.isWhitespace)
      (charReplace ('/') (' ') (charReplace ('\\') (' ') test_area.data))
  area_keywords.countP (fun kw => decide (kw ≠ []) && listSub kw bug_text_lower.data)

/-- `_calculate_area_similarity_boost` (agent.py lines 176-204).  An empty
area field returns `0.0` before any token matching happens. -/
noncomputable def _calculate_area_similarity_boost (tc : TestCase) (bug_text : String) : ℝ :=
  if strLower tc.area = "" then 0
  else if 0 < areaMatches tc bug_text then
    min 0.15 ((areaMatches tc bug_text : ℝ) * 0.08)
  else -0.05

/-- Boost application with the 1.0 cap (agent.py line 298). -/
noncomputable def boostedScore (raw : ℝ) (tc : TestCase) (bug_text : String) : ℝ :=
  min 1 (raw + _calculate_area_similarity_boost tc bug_text)

/-- The three thresholds of one strictness preset. -/
structure Thresholds where
  min_similarity : ℝ
  csv_export : ℝ
  claude_analysis : ℝ

/-- `_get_strictness_thresholds` (agent.py lines 206-234); an unknown level
name falls back to the lenient preset (the `dict.get` default). -/
noncomputable def _get_strictness_thresholds (strictness : String) : Thresholds :=
  if strictness = "lenient" then ⟨0.35, 0.40, 0.45⟩
  else if strictness = "moderate" then ⟨0.50, 0.50, 0.55⟩
  else if strictness = "strict" then ⟨0.65, 0.60, 0.70⟩
  else ⟨0.35, 0.40, 0.45⟩

/-- Descending-by-score comparison used by the Ranker's stable sort
(`similarities.sort(key=lambda x: x[1], reverse=True)`). -/
def scoreGe (p q : TestCase × ℝ) : Prop := q.2 ≤ p.2

noncomputable instance : DecidableRel scoreGe :=
  fun p q => inferInstanceAs (Decidable (q.2 ≤ p.2))

instance : IsTotal (TestCase × ℝ) scoreGe := ⟨fun a b => le_total b.2 a.2⟩

instance : IsTrans (TestCase × ℝ) scoreGe := ⟨fun _ _ _ hab hbc => le_trans hbc hab⟩

/-- `find_similar_test_cases` (agent.py lines 252-306).  Per-record
embeddings go through the id-keyed dict built by
`compute_test_case_embeddings`; each record's similarity is the cosine of
the bug embedding with its dict entry, optionally boost-adjusted and capped,
then threshold-filtered, stably sorted descending and truncated to `top_k`. -/
noncomputable def find_similar_test_cases (embed : String → List ℚ) (tcs : List TestCase)
    (bug_description repro_steps : String) (top_k : ℕ) (min_similarity : ℝ)
    (apply_area_boost : Bool) : List (TestCase × ℝ) :=
  let bug_text := bug_description ++ " " ++ repro_steps
  let bug_embedding := embed bug_text
  let scored := tcs.map (fun tc =>
    let raw := cosineSim bug_embedding (dictEmbed embed tcs tc.id)
    (tc, if apply_area_boost then boostedScore raw tc bug_text else raw))
  let similarities := scored.filter (fun p => decide (min_similarity ≤ p.2))
  (similarities.insertionSort scoreGe).take top_k

/-- The reasoning-call filter with its top-5 degraded fallback
(agent.py lines 774-782). -/
noncomputable def high_confidence_tests (similar : List (TestCase × ℝ))
    (claude_threshold : ℝ) : List (TestCase × ℝ) :=
  let hc := similar.filter (fun p => decide (claude_threshold ≤ p.2))
  if hc.isEmpty && !similar.isEmpty then similar.take (min 5 similar.length) else hc

/-- The per-row gate of `export_results_to_csv` (agent.py lines 619-621): a
ranked candidate is written iff its score is not below the export threshold. -/
noncomputable def export_csv_rows (similar : List (TestCase × ℝ))
    (similarity_threshold : ℝ) : List (TestCase × ℝ) :=
  similar.filter (fun p => !decide (p.2 < similarity_threshold))

/-- The export threshold chosen by `analyze_bug_report` (agent.py lines
754-756): the explicit argument when given, otherwise the strictness
preset's `min_similarity` field (not its `csv_export` field). -/
noncomputable def analyze_csv_export_threshold (strictness : String)
    (similarity_threshold : Option ℝ) : ℝ :=
  similarity_threshold.getD (_get_strictness_thresholds strictness).min_similarity

/-- Descending-by-score comparison for duplicate pairs
(`potential_duplicates.sort(key=lambda x: x['similarity_score'],
reverse=True)`). -/
def pairScoreGe (p q : String × String × ℝ) : Prop := q.2.2 ≤ p.2.2

noncomputable instance : DecidableRel pairScoreGe :=
  fun p q => inferInstanceAs (Decidable (q.2.2 ≤ p.2.2))

instance : IsTotal (String × String × ℝ) pairScoreGe := ⟨fun a b => le_total b.2.2 a.2.2⟩

instance : IsTrans (String × String × ℝ) pairScoreGe := ⟨fun _ _ _ hab hbc => le_trans hbc hab⟩

/-- The all-pairs similarity scan of `detect_duplicates_with_claude`
(agent.py lines 428-454): every id pair (i before j in dict-key order) whose
cosine similarity reaches `similarity_threshold`, with its score. -/
noncomputable def potential_duplicates (embed : String → List ℚ) (tcs : List TestCase)
    (similarity_threshold : ℝ) : List (String × String × ℝ) :=
  (upperPairs (pyDictKeys (tcs.map (fun tc => tc.id)))).filterMap (fun ij =>
    let s := cosineSim (dictEmbed embed tcs ij.1) (dictEmbed embed tcs ij.2)
    if similarity_threshold ≤ s then some (ij.1, ij.2, s) else none)

/-- The pair list `detect_duplicates_with_claude` forwards to the reasoning
collaborator, and also returns unchanged in the unclassified fallback:
empty when fewer than 2 candidate records, otherwise the potential
duplicates sorted descending by similarity and truncated to 20
(agent.py lines 419-420 and 456-460). -/
noncomputable def detect_duplicates_forwarded (embed : String → List ℚ) (tcs : List TestCase)
    (similarity_threshold : ℝ) : List (String × String × ℝ) :=
  if tcs.length < 2 then []
  else
    let pd := potential_duplicates embed tcs similarity_threshold
    if pd.isEmpty then []
    else (pd.insertionSort pairScoreGe).take 20

/-- One entry of the `detected_areas` output of `detect_relevant_areas`. -/
structure DetectedArea where
  area_name : String
  confidence : ℚ
  matched_keywords : ℕ
  total_keywords : ℕ
  deriving DecidableEq

/-- Python `round(q, 3)`.  On the confidence values produced here the
argument is an exact multiple of 1/100, so every tie-breaking convention of
`round` agrees and the rounding is the identity. -/
def round3 (q : ℚ) : ℚ := (round (q * 1000) : ℤ) / 1000

/-- Descending order on the key `(confidence, matched_keywords)` of the
`sorted(..., key=..., reverse=True)` call in `detect_relevant_areas`. -/
def areaKeyGe (a b : DetectedArea) : Prop :=
  b.confidence < a.confidence ∨
    (b.confidence = a.confidence ∧ b.matched_keywords ≤ a.matched_keywords)

instance : DecidableRel areaKeyGe :=
  fun a b => inferInstanceAs (Decidable (b.confidence < a.confidence ∨
    (b.confidence = a.confidence ∧ b.matched_keywords ≤ a.matched_keywords)))

instance : IsTotal DetectedArea areaKeyGe := by
  constructor
  intro a b
  rcases lt_trichotomy a.confidence b.confidence with h | h | h
  · exact Or.inr (Or.inl h)
  · rcases le_total b.matched_keywords a.matched_keywords with hm | hm
    · exact Or.inl (Or.inr ⟨h.symm, hm⟩)
    · exact Or.inr (Or.inr ⟨h, hm⟩)
  · exact Or.inl (Or.inl h)

instance : IsTrans DetectedArea areaKeyGe := by
  constructor
  intro a b c hab hbc
  rcases hab with h1 | ⟨e1, m1⟩
  · rcases hbc with h2 | ⟨e2, m2⟩
    · exact Or.inl (lt_trans h2 h1)
    · exact Or.inl (e2 ▸ h1)
  · rcases hbc with h2 | ⟨e2, m2⟩
    · exact Or.inl (e1 ▸ h2)
    · exact Or.inr ⟨e2.trans e1, le_trans m2 m1⟩

/-- The keyword match count of one area against the combined lower-cased
text (`detect_relevant_areas`, test_case_server.py lines 246-248). -/
def keywordMatches (text : String) (keywords : List String) : ℕ :=
  keywords.countP (fun kw => pySubstr (strLower kw) text)

/-- `detect_relevant_areas` (test_case_server.py lines 242-278): areas with
at least 2 keyword matches, confidence `round(min(1.0, m*0.15 + m*m*0.02),
3)`, sorted descending by (confidence, match count).  The keyword table
`AREA_KEYWORDS` is the `cfg` parameter, in dict iteration order. -/
def detect_relevant_areas (cfg : List (String × List String))
    (bug_description repro_steps : String) : List DetectedArea :=
  let combined_text := strLower (bug_description ++ " " ++ repro_steps)
  let area_scores := cfg.filterMap (fun e =>
    let m := keywordMatches combined_text e.2
    if 2 ≤ m then
      some ⟨e.1, round3 (min 1 ((m : ℚ) * 0.15 + ((m : ℚ) * m) * 0.02)), m, e.2.length⟩
    else none)
  area_scores.insertionSort areaKeyGe

/-- Python slice `l[:n]` for an integer `n`; a negative `n` counts from the
end of the list. -/
def pySliceTake {α : Type} (n : ℤ) (l : List α) : List α :=
  if 0 ≤ n then l.take n.toNat else l.take (l.length - (-n).toNat)

/-- One area's contribution to `search_by_area` (test_case_server.py lines
129-143).  `if state_filter:` and `if limit:` follow Python truthiness, so a
`None` filter, an empty filter string, a `None` limit and a `0` limit all
disable their step. -/
def search_by_area_one (cache : List (String × List TestCase)) (state_filter : Option String)
    (limit : Option ℤ) (area_name : String) : List (String × TestCase) :=
  match cache.find? (fun e => e.1 = area_name) with
  | none => []
  | some e =>
    let afterState :=
      match state_filter with
      | none => e.2
      | some sf => if sf = "" then e.2 else e.2.filter (fun tc => tc.state = sf)
    let afterLimit :=
      match limit with
      | none => afterState
      | some n => if n = 0 then afterState else pySliceTake n afterState
    afterLimit.map (fun tc => (area_name, tc))

/-- `search_by_area` (test_case_server.py lines 110-149), returning the
flattened `(source_area, record)` rows over the requested areas. -/
def search_by_area (cache : List (String × List TestCase)) (area_names : List String)
    (limit : Option ℤ) (state_filter : Option String) : List (String × TestCase) :=
  area_names.flatMap (search_by_area_one cache state_filter limit)

/-- Constant embedding provider used in concrete witnesses. -/
def embedOne : String → List ℚ := fun _ => [1]

/-- Concrete blank record with id "a" (empty area field). -/
def tcBlankA : TestCase := ⟨"a", "", "", "", "", "", ""⟩

/-- Concrete blank record with id "b" (empty area field). -/
def tcBlankB : TestCase := ⟨"b", "", "", "", "", "", ""⟩

/-- Concrete record whose area path is "Billing". -/
def tcBilling : TestCase := ⟨"c", "", "", "Billing", "", "", ""⟩

theorem orderedInsert_append_of_rel {α : Type} (r : α → α → Prop) [DecidableRel r] (a : α)
    (X Y : List α) :
    (∀ y ∈ Y, r a y) → (X ++ Y).orderedInsert r a = X.orderedInsert r a ++ Y := by
  induction X with
  | nil =>
    intro h
    cases Y with
    | nil => rfl
    | cons y ys =>
      simp only [List.nil_append, List.orderedInsert]
      rw [if_pos (h y (List.mem_cons_self y ys))]
      rfl
  | cons x xs ih =>
    intro h
    simp only [List.cons_append, List.orderedInsert, List.append_eq]
    by_cases hx : r a x
    · rw [if_pos hx, if_pos hx]
      simp
    · rw [if_neg hx, if_neg hx, ih h]
      simp

theorem orderedInsert_append_of_not_rel {α : Type} (r : α → α → Prop) [DecidableRel r] (a : α)
    (X Y : List α) :
    (∀ x ∈ X, ¬ r a x) → (X ++ Y).orderedInsert r a = X ++ Y.orderedInsert r a := by
  induction X with
  | nil => intro _; simp
  | cons x xs ih =>
    intro h
    simp only [List.cons_append, List.orderedInsert, List.append_eq]
    rw [if_neg (h x (List.mem_cons_self x xs))]
    rw [ih (fun z hz => h z (List.mem_cons_of_mem x hz))]

/-- Stable-sort decomposition: relaxing the score threshold from `t2` to
`t1 ≤ t2` appends the new, strictly-below-`t2` candidates after the old
sorted list, leaving the old sorted list as a prefix. -/
theorem sortFilterSplit (t1 t2 : ℝ) (h12 : t1 ≤ t2) (l : List (TestCase × ℝ)) :
    ∃ D : List (TestCase × ℝ),
      (l.filter (fun p => decide (t1 ≤ p.2))).insertionSort scoreGe
        = (l.filter (fun p => decide (t2 ≤ p.2))).insertionSort scoreGe ++ D
      ∧ ∀ d ∈ D, d.2 < t2 := by
  induction l with
  | nil => exact ⟨[], rfl, fun d hd => absurd hd (List.not_mem_nil d)⟩
  | cons a l ih =>
    obtain ⟨D, hD, hDlt⟩ := ih
    by_cases h2 : t2 ≤ a.2
    · have h1 : t1 ≤ a.2 := le_trans h12 h2
      refine ⟨D, ?_, hDlt⟩
      rw [List.filter_cons, List.filter_cons, if_pos (decide_eq_true h1),
        if_pos (decide_eq_true h2)]
      simp only [List.insertionSort]
      rw [hD]
      exact orderedInsert_append_of_rel scoreGe a _ D
        (fun d hd => le_of_lt (lt_of_lt_of_le (hDlt d hd) h2))
    · by_cases h1 : t1 ≤ a.2
      · refine ⟨D.orderedInsert scoreGe a, ?_, ?_⟩
        · rw [List.filter_cons, List.filter_cons, if_pos (decide_eq_true h1),
            if_neg (by simpa using h2)]
          simp only [List.insertionSort]
          rw [hD]
          apply orderedInsert_append_of_not_rel
          intro x hx
          rw [List.mem_insertionSort] at hx
          have hx2 : t2 ≤ x.2 := by simpa using (List.mem_filter.mp hx).2
          exact fun hax => h2 (le_trans hx2 hax)
        · intro d hd
          rcases (List.mem_orderedInsert scoreGe).mp hd with rfl | hd2
          · exact lt_of_not_le h2
          · exact hDlt d hd2
      · refine ⟨D, ?_, hDlt⟩
        rw [List.filter_cons, List.filter_cons, if_neg (by simpa using h1),
          if_neg (by simpa using h2)]
        exact hD

theorem normSq_nonneg (v : List ℚ) : 0 ≤ normSq v := by
  apply List.sum_nonneg
  intro z hz
  rw [List.mem_map] at hz
  obtain ⟨x, -, rfl⟩ := hz
  exact mul_self_nonneg x

/-- Cauchy-Schwarz for the list dot product and squared norms. -/
theorem dotQ_sq_le (a b : List ℚ) : (dotQ a b) ^ 2 ≤ normSq a * normSq b := by
  induction a generalizing b with
  | nil =>
    simp [dotQ, normSq]
  | cons x xs ih =>
    cases b with
    | nil =>
      simp [dotQ, normSq]
    | cons y ys =>
      have hd := ih ys
      have hA := normSq_nonneg xs
      have hB := normSq_nonneg ys
      simp only [dotQ, normSq, List.zipWith_cons_cons, List.map_cons, List.sum_cons]
        at hd hA hB ⊢
      rcases le_or_lt (2 * x * y * ((List.zipWith (fun x y => x * y) xs ys).sum)) 0 with hv | hv
      · nlinarith [hd, hA, hB, sq_nonneg x, sq_nonneg y, mul_nonneg (mul_self_nonneg x) hB,
          mul_nonneg hA (mul_self_nonneg y)]
      · nlinarith [hd, hA, hB, sq_nonneg (x * y),
          sq_nonneg (x * x * ((ys.map (fun z => z * z)).sum)
            - ((xs.map (fun z => z * z)).sum) * (y * y)),
          mul_nonneg (mul_self_nonneg x) hB, mul_nonneg hA (mul_self_nonneg y)]

/-- The raw cosine similarity never exceeds 1. -/
theorem cosineSim_le_one (a b : List ℚ) : cosineSim a b ≤ 1 := by
  unfold cosineSim
  split_ifs with h
  · obtain ⟨ha, hb⟩ := h
    rw [div_le_one (mul_pos ha hb)]
    unfold vnorm at ha hb ⊢
    have hna : (0 : ℝ) ≤ (normSq a : ℚ) := by exact_mod_cast normSq_nonneg a
    rw [← Real.sqrt_mul hna]
    rw [show ((normSq a : ℚ) : ℝ) * ((normSq b : ℚ) : ℝ)
        = (((normSq a * normSq b : ℚ)) : ℝ) by push_cast; ring]
    rcases le_or_lt ((dotQ a b : ℚ) : ℝ) 0 with hneg | hpos
    · exact le_trans hneg (Real.sqrt_nonneg _)
    · rw [Real.le_sqrt hpos.le]
      · exact_mod_cast dotQ_sq_le a b
      · exact_mod_cast mul_nonneg (normSq_nonneg a) (normSq_nonneg b)
  · exact zero_le_one

/-- The additive area adjustment is never below -0.05. -/
theorem area_boost_lower (tc : TestCase) (bug_text : String) :
    (-0.05 : ℝ) ≤ _calculate_area_similarity_boost tc bug_text := by
  unfold _calculate_area_similarity_boost
  split_ifs with h1 h2
  · norm_num
  · have hx : (0 : ℝ) ≤ (areaMatches tc bug_text : ℝ) * 0.08 := by positivity
    have h15 : (-0.05 : ℝ) ≤ 0.15 := by norm_num
    exact le_min h15 (by linarith)
  · exact le_refl _

/-- Claim C7: `_get_strictness_thresholds` maps lenient to (0.35, 0.45,
0.40), moderate to (0.50, 0.55, 0.50) and strict to (0.65, 0.70, 0.60)
where the triple is (min_similarity, reasoning-call/claude threshold,
export/csv threshold), and every other level name to the lenient preset. -/
theorem strictness_thresholds_table :
    ((_get_strictness_thresholds ("lenient")).min_similarity = 0.35
      ∧ (_get_strictness_thresholds ("lenient")).claude_analysis = 0.45
      ∧ (_get_strictness_thresholds ("lenient")).csv_export = 0.40)
    ∧ ((_get_strictness_thresholds ("moderate")).min_similarity = 0.50
      ∧ (_get_strictness_thresholds ("moderate")).claude_analysis = 0.55
      ∧ (_get_strictness_thresholds ("moderate")).csv_export = 0.50)
    ∧ ((_get_strictness_thresholds ("strict")).min_similarity = 0.65
      ∧ (_get_strictness_thresholds ("strict")).claude_analysis = 0.70
      ∧ (_get_strictness_thresholds ("strict")).csv_export = 0.60)
    ∧ ∀ s : String, s ≠ "lenient" → s ≠ "moderate" → s ≠ "strict" →
        _get_strictness_thresholds s = _get_strictness_thresholds ("lenient") := by
  refine ⟨⟨rfl, rfl, rfl⟩, ⟨rfl, rfl, rfl⟩, ⟨rfl, rfl, rfl⟩, ?_⟩
  intro s h1 h2 h3
  unfold _get_strictness_thresholds
  rw [if_neg h1, if_neg h2, if_neg h3, if_pos rfl]

theorem strictness_thresholds_table_witness :
    _get_strictness_thresholds ("typo") = _get_strictness_thresholds ("lenient") :=
  strictness_thresholds_table.2.2.2 ("typo") (by decide) (by decide) (by decide)

/-- Claim C9: in the shared cosine-similarity computation of the Ranker and
the Duplicate Detector, a zero norm on either side yields similarity 0.0,
and the division is evaluated only under the guard that both norms are
strictly positive, where its denominator is provably nonzero. -/
theorem cosine_zero_norm_guard (a b : List ℚ) :
    ((vnorm a = 0 ∨ vnorm b = 0) → cosineSim a b = 0)
    ∧ (0 < vnorm a → 0 < vnorm b →
        vnorm a * vnorm b ≠ 0
          ∧ cosineSim a b * (vnorm a * vnorm b) = (dotQ a b : ℝ)) := by
  constructor
  · intro h
    unfold cosineSim
    rw [if_neg]
    rintro ⟨ha, hb⟩
    rcases h with h | h
    · exact absurd h (ne_of_gt ha)
    · exact absurd h (ne_of_gt hb)
  · intro ha hb
    have hne : vnorm a * vnorm b ≠ 0 := ne_of_gt (mul_pos ha hb)
    refine ⟨hne, ?_⟩
    unfold cosineSim
    rw [if_pos ⟨ha, hb⟩]
    exact div_mul_cancel₀ _ hne

theorem cosine_zero_norm_guard_witness :
    cosineSim [0] [1] = 0 ∧ vnorm [1] * vnorm [1] ≠ 0 := by
  have hz : vnorm [0] = 0 := by
    unfold vnorm
    rw [show ((normSq [0] : ℚ) : ℝ) = 0 by norm_num [normSq]]
    exact Real.sqrt_zero
  have h1 : 0 < vnorm [1] := by
    unfold vnorm
    rw [show ((normSq [1] : ℚ) : ℝ) = 1 by norm_num [normSq]]
    rw [Real.sqrt_one]
    norm_num
  exact ⟨(cosine_zero_norm_guard [0] [1]).1 (Or.inl hz),
    ((cosine_zero_norm_guard [1] [1]).2 h1 h1).1⟩

/-- Claim C5 counterexample: a record whose area field is empty has zero
matching area tokens, yet its additive adjustment is 0.0 and not the -0.05
the claim requires for the zero-match case. -/
theorem area_boost_empty_area_counterexample :
    areaMatches tcBlankA ("anything") = 0
    ∧ _calculate_area_similarity_boost tcBlankA ("anything") = 0
    ∧ _calculate_area_similarity_boost tcBlankA ("anything") ≠ -0.05 := by
  have he : strLower tcBlankA.area = ("") := rfl
  have hb : _calculate_area_similarity_boost tcBlankA ("anything") = 0 := by
    unfold _calculate_area_similarity_boost
    rw [if_pos he]
  refine ⟨rfl, hb, ?_⟩
  rw [hb]
  norm_num

/-- Claim C5 (amended): with area boost enabled, a record with a nonempty
area field gets the additive adjustment `min(0.15, m*0.08)` when `m ≥ 1` of
its area-path tokens occur in the lower-cased query text and `-0.05` when
none do, while a record with an empty area field gets adjustment `0.0`; the
adjusted score is capped at 1.0 and, whenever the raw cosine score is at
most 1, the adjusted score is never below the raw score by more than 0.05. -/
theorem area_boost_amended (tc : TestCase) (bug_text : String) (raw : ℝ) :
    (strLower tc.area = "" → _calculate_area_similarity_boost tc bug_text = 0)
    ∧ (strLower tc.area ≠ "" → 0 < areaMatches tc bug_text →
        _calculate_area_similarity_boost tc bug_text
          = min 0.15 ((areaMatches tc bug_text : ℝ) * 0.08))
    ∧ (strLower tc.area ≠ "" → areaMatches tc bug_text = 0 →
        _calculate_area_similarity_boost tc bug_text = -0.05)
    ∧ boostedScore raw tc bug_text ≤ 1
    ∧ (raw ≤ 1 → raw - 0.05 ≤ boostedScore raw tc bug_text)
    ∧ ∀ a b : List ℚ,
        cosineSim a b - 0.05 ≤ boostedScore (cosineSim a b) tc bug_text := by
  have hcap : ∀ r : ℝ, r ≤ 1 → r - 0.05 ≤ boostedScore r tc bug_text := by
    intro r hr
    have hlow := area_boost_lower tc bug_text
    unfold boostedScore
    exact le_min (by linarith) (by linarith)
  refine ⟨?_, ?_, ?_, min_le_left _ _, hcap raw, ?_⟩
  · intro h
    unfold _calculate_area_similarity_boost
    rw [if_pos h]
  · intro h hm
    unfold _calculate_area_similarity_boost
    rw [if_neg h, if_pos hm]
  · intro h hm
    unfold _calculate_area_similarity_boost
    rw [if_neg h, if_neg (by rw [hm]; exact lt_irrefl 0)]
  · intro a b
    exact hcap (cosineSim a b) (cosineSim_le_one a b)

theorem area_boost_amended_witness :
    _calculate_area_similarity_boost tcBilling ("billing stuff")
      = min 0.15 ((areaMatches tcBilling ("billing stuff") : ℝ) * 0.08)
    ∧ (0.5 : ℝ) - 0.05 ≤ boostedScore 0.5 tcBilling ("billing stuff") :=
  ⟨(area_boost_amended tcBilling ("billing stuff") 0.5).2.1 (by decide) (by decide),
    (area_boost_amended tcBilling ("billing stuff") 0.5).2.2.2.2.1 (by norm_num)⟩

/-- Claim C2 (code bug evidence): with no explicit export threshold,
`analyze_bug_report` gates the CSV export at the strictness preset's
`min_similarity` (0.35 for lenient), not at its `csv_export` field (0.40
for lenient): a lenient-mode candidate scoring 0.37 is written to the
report although it is below the policy table's export threshold. -/
theorem analyze_export_gate_uses_min_similarity :
    analyze_csv_export_threshold ("lenient") none
        = (_get_strictness_thresholds ("lenient")).min_similarity
    ∧ export_csv_rows [(tcBlankA, 0.37)] (analyze_csv_export_threshold ("lenient") none)
        = [(tcBlankA, 0.37)]
    ∧ (0.37 : ℝ) < (_get_strictness_thresholds ("lenient")).csv_export := by
  have hth : _get_strictness_thresholds ("lenient") = ⟨0.35, 0.40, 0.45⟩ := rfl
  have hthr : analyze_csv_export_threshold ("lenient") none = (0.35 : ℝ) := by
    unfold analyze_csv_export_threshold
    rw [hth]
    rfl
  refine ⟨rfl, ?_, ?_⟩
  · rw [hthr]
    unfold export_csv_rows
    rw [List.filter_cons]
    rw [show (tcBlankA, (0.37 : ℝ)).2 = (0.37 : ℝ) from rfl]
    rw [decide_eq_false (show ¬ ((0.37 : ℝ) < 0.35) by norm_num)]
    simp
  · rw [hth]
    norm_num

/-- Claim C10 counterexample: `search_by_area` with the non-positive limit
-1 (truthy in Python) truncates a two-record shard to one record, so it is
not only strictly positive limits that truncate. -/
theorem search_by_area_negative_limit_counterexample :
    search_by_area [(("A"), [tcBlankA, tcBlankB])] [("A")] (some (-1)) none
        = [(("A"), tcBlankA)]
    ∧ ¬ (0 < (-1 : ℤ))
    ∧ search_by_area [(("A"), [tcBlankA, tcBlankB])] [("A")] none none
        = [(("A"), tcBlankA), (("A"), tcBlankB)] := by
  refine ⟨by decide, by decide, by decide⟩

theorem search_one_zero_limit (cache : List (String × List TestCase))
    (sf : Option String) (nm : String) :
    search_by_area_one cache sf (some 0) nm = search_by_area_one cache sf none nm := by
  unfold search_by_area_one
  cases cache.find? (fun e => e.1 = nm) with
  | none => rfl
  | some e => simp

/-- Claim C10 (amended): `search_by_area` with `limit = 0` behaves exactly
like `limit = None`, returning every record of each requested shard; a
strictly positive limit `n` truncates each shard's contribution to at most
`n` records (a negative limit also shortens the result, by Python slice
semantics, as the counterexample records). -/
theorem search_by_area_zero_limit_amended (cache : List (String × List TestCase))
    (area_names : List String) (state_filter : Option String) :
    search_by_area cache area_names (some 0) state_filter
        = search_by_area cache area_names none state_filter
    ∧ ∀ n : ℤ, 0 < n → ∀ nm : String,
        (search_by_area_one cache state_filter (some n) nm).length ≤ n.toNat := by
  constructor
  · unfold search_by_area
    have hfun : search_by_area_one cache state_filter (some 0)
        = search_by_area_one cache state_filter none := by
      funext nm
      exact search_one_zero_limit cache state_filter nm
    rw [hfun]
  · intro n hn nm
    unfold search_by_area_one
    cases cache.find? (fun e => e.1 = nm) with
    | none => simp
    | some e =>
      simp only
      rw [if_neg (by omega : ¬ n = 0)]
      rw [List.length_map]
      unfold pySliceTake
      rw [if_pos hn.le]
      exact List.length_take_le _ _

/-- Claim C1: for every query, loaded corpus, top_k, min_similarity and
area-boost setting, the Ranker's output has length at most top_k, is sorted
non-increasing by score, and contains only candidates whose (boost-adjusted)
score is at least min_similarity. -/
theorem find_similar_topk_sorted_filtered (embed : String → List ℚ) (tcs : List TestCase)
    (bug_description repro_steps : String) (top_k : ℕ) (min_similarity : ℝ)
    (apply_area_boost : Bool) :
    (find_similar_test_cases embed tcs bug_description repro_steps top_k min_similarity
        apply_area_boost).length ≤ top_k
    ∧ List.Sorted scoreGe (find_similar_test_cases embed tcs bug_description repro_steps
        top_k min_similarity apply_area_boost)
    ∧ ∀ p ∈ find_similar_test_cases embed tcs bug_description repro_steps top_k
        min_similarity apply_area_boost, min_similarity ≤ p.2 := by
  unfold find_similar_test_cases
  refine ⟨List.length_take_le _ _, ?_, ?_⟩
  · exact List.Pairwise.sublist (List.take_sublist _ _) (List.sorted_insertionSort scoreGe _)
  · intro p hp
    have h1 := List.take_subset _ _ hp
    rw [List.mem_insertionSort] at h1
    simpa using (List.mem_filter.mp h1).2

theorem takeSortFilter_monotone (t1 t2 : ℝ) (h12 : t1 ≤ t2) (k : ℕ)
    (l : List (TestCase × ℝ)) (p : TestCase × ℝ)
    (hp : p ∈ ((l.filter (fun q => decide (t2 ≤ q.2))).insertionSort scoreGe).take k) :
    p ∈ ((l.filter (fun q => decide (t1 ≤ q.2))).insertionSort scoreGe).take k := by
  obtain ⟨D, hD, -⟩ := sortFilterSplit t1 t2 h12 l
  rw [hD, List.take_append_eq_append_take]
  exact List.mem_append_left _ hp

/-- Claim C3: for a fixed query, corpus, top_k and boost setting, every
candidate returned at threshold t2 is also returned at any lower threshold
t1 (threshold monotonicity of the Ranker). -/
theorem find_similar_threshold_monotone (embed : String → List ℚ) (tcs : List TestCase)
    (bug_description repro_steps : String) (top_k : ℕ) (apply_area_boost : Bool)
    (t1 t2 : ℝ) (h12 : t1 < t2) (p : TestCase × ℝ)
    (hp : p ∈ find_similar_test_cases embed tcs bug_description repro_steps top_k t2
        apply_area_boost) :
    p ∈ find_similar_test_cases embed tcs bug_description repro_steps top_k t1
        apply_area_boost := by
  simp only [find_similar_test_cases] at hp ⊢
  exact takeSortFilter_monotone t1 t2 h12.le top_k _ p hp

theorem cosineSim_one_one : cosineSim [1] [1] = 1 := by
  have h1 : ((normSq [1] : ℚ) : ℝ) = 1 := by norm_num [normSq]
  unfold cosineSim vnorm
  rw [h1, Real.sqrt_one]
  rw [if_pos ⟨one_pos, one_pos⟩]
  rw [show dotQ [1] [1] = 1 by norm_num [dotQ]]
  norm_num

theorem find_similar_eval (t : ℝ) (ht : t ≤ 1) :
    find_similar_test_cases embedOne [tcBlankA] ("b") ("r") 20 t false
      = [(tcBlankA, (1 : ℝ))] := by
  have hcos : cosineSim (embedOne (("b") ++ " " ++ ("r")))
      (dictEmbed embedOne [tcBlankA] tcBlankA.id) = 1 := by
    rw [show dictEmbed embedOne [tcBlankA] tcBlankA.id = [1] from rfl]
    rw [show embedOne (("b") ++ " " ++ ("r")) = [1] from rfl]
    exact cosineSim_one_one
  simp only [find_similar_test_cases, List.map_cons, List.map_nil, Bool.false_eq_true,
    if_false, hcos]
  rw [List.filter_cons]
  rw [show decide (t ≤ (tcBlankA, (1 : ℝ)).2) = true from decide_eq_true ht]
  rw [if_pos rfl, List.filter_nil]
  simp [List.insertionSort]

theorem find_similar_topk_sorted_filtered_witness :
    (find_similar_test_cases embedOne [tcBlankA] ("b") ("r") 20 (0.5 : ℝ) false).length ≤ 20
    ∧ (0.5 : ℝ) ≤ (tcBlankA, (1 : ℝ)).2 := by
  refine ⟨(find_similar_topk_sorted_filtered embedOne [tcBlankA] ("b") ("r") 20
    (0.5 : ℝ) false).1, ?_⟩
  apply (find_similar_topk_sorted_filtered embedOne [tcBlankA] ("b") ("r") 20
    (0.5 : ℝ) false).2.2
  rw [find_similar_eval (0.5 : ℝ) (by norm_num)]
  exact List.mem_singleton.mpr rfl

theorem find_similar_threshold_monotone_witness :
    (tcBlankA, (1 : ℝ)) ∈ find_similar_test_cases embedOne [tcBlankA] ("b") ("r") 20
      (0.3 : ℝ) false := by
  apply find_similar_threshold_monotone embedOne [tcBlankA] ("b") ("r") 20 false
    (0.3 : ℝ) (0.5 : ℝ) (by norm_num)
  rw [find_similar_eval (0.5 : ℝ) (by norm_num)]
  exact List.mem_singleton.mpr rfl

theorem round3_conf (m : ℕ) :
    round3 (min 1 ((m : ℚ) * 0.15 + ((m : ℚ) * m) * 0.02))
      = min 1 ((m : ℚ) * 0.15 + ((m : ℚ) * m) * 0.02) := by
  have hx : (m : ℚ) * 0.15 + ((m : ℚ) * m) * 0.02
      = ((15 * m + 2 * (m * m) : ℕ) : ℚ) / 100 := by
    push_cast
    ring
  rcases le_total 1 ((m : ℚ) * 0.15 + ((m : ℚ) * m) * 0.02) with h | h
  · rw [min_eq_left h]
    unfold round3
    rw [show ((1 : ℚ) * 1000) = ((1000 : ℤ) : ℚ) by norm_num]
    rw [round_intCast]
    norm_num
  · rw [min_eq_right h]
    unfold round3
    rw [hx]
    rw [show ((15 * m + 2 * (m * m) : ℕ) : ℚ) / 100 * 1000
        = (((150 * m + 20 * (m * m) : ℕ) : ℤ) : ℚ) by push_cast; ring]
    rw [round_intCast]
    push_cast
    ring

/-- Claim C4: every area detected by `detect_relevant_areas` has at least 2
matched keywords, its confidence equals `min(1, m*0.15 + m^2*0.02)`, and the
detected list is sorted descending by (confidence, matched keyword count). -/
theorem detect_relevant_areas_spec (cfg : List (String × List String))
    (bug_description repro_steps : String) :
    (∀ d ∈ detect_relevant_areas cfg bug_description repro_steps,
        2 ≤ d.matched_keywords
        ∧ d.confidence
            = min 1 ((d.matched_keywords : ℚ) * 0.15 + (d.matched_keywords : ℚ) ^ 2 * 0.02))
    ∧ List.Sorted areaKeyGe (detect_relevant_areas cfg bug_description repro_steps) := by
  constructor
  · intro d hd
    simp only [detect_relevant_areas] at hd
    rw [List.mem_insertionSort, List.mem_filterMap] at hd
    obtain ⟨e, -, hfe⟩ := hd
    by_cases hm : 2 ≤ keywordMatches (strLower (bug_description ++ " " ++ repro_steps)) e.2
    · rw [if_pos hm] at hfe
      obtain rfl := Option.some.inj hfe
      refine ⟨hm, ?_⟩
      dsimp only
      rw [round3_conf, pow_two]
    · rw [if_neg hm] at hfe
      simp at hfe
  · exact List.sorted_insertionSort areaKeyGe _

theorem detect_eval :
    detect_relevant_areas [(("A"), [("x"), ("y")])] ("x y") ("")
      = [⟨("A"), round3 (min 1 (((2 : ℕ) : ℚ) * 0.15 + (((2 : ℕ) : ℚ) * (2 : ℕ)) * 0.02)), 2, 2⟩] := by
  have hkm : keywordMatches (strLower (("x y") ++ " " ++ (""))) [("x"), ("y")] = 2 := by decide
  simp only [detect_relevant_areas, List.filterMap_cons, List.filterMap_nil, hkm]
  rw [if_pos (by norm_num : 2 ≤ 2)]
  simp [List.insertionSort]

theorem detect_relevant_areas_spec_witness :
    2 ≤ (2 : ℕ)
    ∧ round3 (min 1 (((2 : ℕ) : ℚ) * 0.15 + (((2 : ℕ) : ℚ) * (2 : ℕ)) * 0.02))
        = min 1 (((2 : ℕ) : ℚ) * 0.15 + ((2 : ℕ) : ℚ) ^ 2 * 0.02) := by
  have h := (detect_relevant_areas_spec [(("A"), [("x"), ("y")])] ("x y") ("")).1
    ⟨("A"), round3 (min 1 (((2 : ℕ) : ℚ) * 0.15 + (((2 : ℕ) : ℚ) * (2 : ℕ)) * 0.02)), 2, 2⟩
    (by rw [detect_eval]; exact List.mem_singleton.mpr rfl)
  exact ⟨h.1, h.2⟩

/-- Claim C6: the Duplicate Detector returns empty for fewer than 2
candidate records; every pair it keeps scores at least the caller-supplied
threshold; and the list forwarded to the reasoning collaborator (also the
unclassified fallback return) holds at most 20 pairs, sorted descending. -/
theorem detect_duplicates_spec (embed : String → List ℚ) (tcs : List TestCase)
    (similarity_threshold : ℝ) :
    (tcs.length < 2 → detect_duplicates_forwarded embed tcs similarity_threshold = [])
    ∧ (∀ p ∈ detect_duplicates_forwarded embed tcs similarity_threshold,
        similarity_threshold ≤ p.2.2)
    ∧ (detect_duplicates_forwarded embed tcs similarity_threshold).length ≤ 20
    ∧ List.Sorted pairScoreGe (detect_duplicates_forwarded embed tcs similarity_threshold) := by
  have hmem : ∀ p ∈ potential_duplicates embed tcs similarity_threshold,
      similarity_threshold ≤ p.2.2 := by
    intro p hp
    simp only [potential_duplicates] at hp
    rw [List.mem_filterMap] at hp
    obtain ⟨ij, -, hij⟩ := hp
    by_cases hs : similarity_threshold
        ≤ cosineSim (dictEmbed embed tcs ij.1) (dictEmbed embed tcs ij.2)
    · rw [if_pos hs] at hij
      obtain rfl := Option.some.inj hij
      exact hs
    · rw [if_neg hs] at hij
      simp at hij
  simp only [detect_duplicates_forwarded]
  by_cases hlen : tcs.length < 2
  · rw [if_pos hlen]
    exact ⟨fun _ => rfl, fun p hp => absurd hp (List.not_mem_nil p), by simp, List.sorted_nil⟩
  · rw [if_neg hlen]
    by_cases hpd : (potential_duplicates embed tcs similarity_threshold).isEmpty = true
    · rw [if_pos hpd]
      exact ⟨fun h => absurd h hlen, fun p hp => absurd hp (List.not_mem_nil p),
        by simp, List.sorted_nil⟩
    · rw [if_neg hpd]
      refine ⟨fun h => absurd h hlen, ?_, List.length_take_le _ _,
        List.Pairwise.sublist (List.take_sublist _ _)
          (List.sorted_insertionSort pairScoreGe _)⟩
      intro p hp
      have h1 := List.take_subset _ _ hp
      rw [List.mem_insertionSort] at h1
      exact hmem p h1

theorem dup_forward_eval :
    detect_duplicates_forwarded embedOne [tcBlankA, tcBlankB] (9 / 10 : ℝ)
      = [(("a"), ("b"), (1 : ℝ))] := by
  have hcos : cosineSim (dictEmbed embedOne [tcBlankA, tcBlankB] ("a"))
      (dictEmbed embedOne [tcBlankA, tcBlankB] ("b")) = 1 := by
    rw [show dictEmbed embedOne [tcBlankA, tcBlankB] ("a") = [1] from rfl]
    rw [show dictEmbed embedOne [tcBlankA, tcBlankB] ("b") = [1] from rfl]
    exact cosineSim_one_one
  have hpd : potential_duplicates embedOne [tcBlankA, tcBlankB] (9 / 10 : ℝ)
      = [(("a"), ("b"), (1 : ℝ))] := by
    simp only [potential_duplicates]
    rw [show pyDictKeys ([tcBlankA, tcBlankB].map (fun tc => tc.id)) = [("a"), ("b")]
      from rfl]
    rw [show upperPairs [("a"), ("b")] = [((("a") : String), (("b") : String))] from rfl]
    simp only [List.filterMap_cons, List.filterMap_nil, hcos]
    rw [if_pos (by norm_num : (9 / 10 : ℝ) ≤ 1)]
  simp only [detect_duplicates_forwarded]
  rw [if_neg (by norm_num : ¬ ([tcBlankA, tcBlankB].length < 2))]
  rw [hpd]
  simp [List.insertionSort]

theorem detect_duplicates_spec_witness :
    detect_duplicates_forwarded embedOne [] (9 / 10 : ℝ) = []
    ∧ (9 / 10 : ℝ) ≤ ((("a") : String), (("b") : String), (1 : ℝ)).2.2 := by
  constructor
  · exact (detect_duplicates_spec embedOne [] (9 / 10 : ℝ)).1 (by decide)
  · apply (detect_duplicates_spec embedOne [tcBlankA, tcBlankB] (9 / 10 : ℝ)).2.1
    rw [dup_forward_eval]
    exact List.mem_singleton.mpr rfl

/-- Claim C8: when at least one ranked candidate exists but none reaches the
reasoning-call threshold, the candidates forwarded to the reasoning
collaborator are the top min(5, n) of the minimum-threshold set; otherwise
exactly the candidates at or above the reasoning-call threshold go forward. -/
theorem high_confidence_fallback (similar : List (TestCase × ℝ)) (claude_threshold : ℝ) :
    (similar ≠ [] → (∀ p ∈ similar, p.2 < claude_threshold) →
      high_confidence_tests similar claude_threshold = similar.take (min 5 similar.length))
    ∧ ((∃ p ∈ similar, claude_threshold ≤ p.2) →
      high_confidence_tests similar claude_threshold
        = similar.filter (fun p => decide (claude_threshold ≤ p.2)))
    ∧ (similar = [] →
      high_confidence_tests similar claude_threshold
        = similar.filter (fun p => decide (claude_threshold ≤ p.2))) := by
  refine ⟨?_, ?_, ?_⟩
  · intro hne hall
    have hfil : similar.filter (fun p => decide (claude_threshold ≤ p.2)) = [] := by
      rw [List.filter_eq_nil_iff]
      intro a ha
      simpa using not_le.mpr (hall a ha)
    have hsim : similar.isEmpty = false := by
      cases similar with
      | nil => exact absurd rfl hne
      | cons a l => rfl
    simp only [high_confidence_tests, hfil]
    rw [if_pos (by rw [hsim]; rfl)]
  · rintro ⟨p, hp, hple⟩
    have hfil : p ∈ similar.filter (fun q => decide (claude_threshold ≤ q.2)) :=
      List.mem_filter.mpr ⟨hp, decide_eq_true hple⟩
    simp only [high_confidence_tests]
    rw [if_neg]
    intro hcond
    have h1 := ((Bool.and_eq_true _ _).mp hcond).1
    rw [List.isEmpty_iff] at h1
    rw [h1] at hfil
    exact absurd hfil (List.not_mem_nil p)
  · intro h
    subst h
    rfl

theorem high_confidence_fallback_witness :
    high_confidence_tests [(tcBlankA, (0.6 : ℝ))] (0.7 : ℝ)
        = [(tcBlankA, (0.6 : ℝ))].take (min 5 ([(tcBlankA, (0.6 : ℝ))]).length)
    ∧ high_confidence_tests [(tcBlankA, (0.6 : ℝ))] (0.5 : ℝ)
        = [(tcBlankA, (0.6 : ℝ))].filter (fun p => decide ((0.5 : ℝ) ≤ p.2)) := by
  constructor
  · apply (high_confidence_fallback [(tcBlankA, (0.6 : ℝ))] (0.7 : ℝ)).1
    · simp
    · intro p hp
      rw [List.mem_singleton] at hp
      subst hp
      show (0.6 : ℝ) < 0.7
      norm_num
  · apply (high_confidence_fallback [(tcBlankA, (0.6 : ℝ))] (0.5 : ℝ)).2.1
    exact ⟨(tcBlankA, (0.6 : ℝ)), List.mem_singleton.mpr rfl,
      show (0.5 : ℝ) ≤ 0.6 by norm_num⟩

theorem search_by_area_zero_limit_amended_witness :
    (search_by_area_one [(("A"), [tcBlankA, tcBlankB])] none (some 1) ("A")).length
      ≤ (1 : ℤ).toNat :=
  (search_by_area_zero_limit_amended [(("A"), [tcBlankA, tcBlankB])] [("A")] none).2
    1 (by norm_num) ("A")

end RadAI
